import Mathlib

/-!
Shallow embedding of the anomaly-detection core of `src/main.rs`
(a Rocket web service that classifies rating interactions).

Conventions of the embedding:
* Rust `f32` ratings and accumulator fields are modelled as exact
  rationals (`ℚ`); floating-point rounding is not modelled.
* `std_dev` in the source is `variance.sqrt()`.  The square root does
  not exist computably on `ℚ`, so the classifier is embedded with the
  two comparisons squared (`std_dev == 0.0` becomes `variance = 0`,
  `diff > 2 * std_dev` becomes `diff^2 > 4 * variance`).  The lemma
  `classifyVar_sqrt` proves this representation equivalent to the
  source's square-root formulation for every nonnegative variance, and
  `NodeStats.variance_ofRatings_nonneg` proves every accumulator built
  by `update` has nonnegative variance.
* Rust `i32` entity ids and `i64` timestamps are modelled as `Int`
  (they are only stored and compared for equality).
* The database table `ratings` is modelled as a `List Record` in
  insertion order; `HashMap` accumulators are modelled as association
  lists (`List (Int × _)`); iteration order only affects the order of
  counter increments, never the counts themselves.
* Fallible steps (missing `DATABASE_URL`, connection failure, query
  failure) are modelled by `Except`: each endpoint takes the outcome of
  its storage interaction as an explicit argument.
-/

namespace NetSec

/-- Rust `struct NewInteraction` (main.rs lines 17-23): the request body of
`/add_interaction`. -/
structure NewInteraction where
  source : Int
  target : Int
  rating : ℚ
  deriving DecidableEq

/-- Rust `struct InteractionResponse` (main.rs lines 25-30). -/
structure InteractionResponse where
  status : String
  is_anomaly : Bool
  deriving DecidableEq

/-- Rust `struct StatsResponse` (main.rs lines 32-39).  The counters are
`u32` in the source; they are modelled as `Nat` (every count produced
by the code is bounded by the number of scanned rows, so no wraparound
occurs for datasets below `2^32` rows).  `anomaly_ratio` is `f32` in
the source, modelled exactly as `ℚ`. -/
structure StatsResponse where
  total_interactions : Nat
  normal_interactions : Nat
  anomalous_interactions : Nat
  anomaly_frac : ℚ
  deriving DecidableEq

/-- Rust `struct Record` (main.rs lines 55-62): one row of the `ratings`
table. -/
structure Record where
  source : Int
  target : Int
  rating : ℚ
  timestamp : Int
  anomaly : Int
  deriving DecidableEq

/-- Rust `struct Edge` (main.rs lines 64-70): an outgoing edge stored in the
adjacency map of `get_stats`. -/
structure Edge where
  target : Int
  rating : ℚ
  timestamp : Int
  anomaly : Int
  deriving DecidableEq

/-- Rust `struct NodeStats` (main.rs lines 72-77): running accumulator of
first and second moments per entity. -/
structure NodeStats where
  sum : ℚ
  sum_sq : ℚ
  count : Nat
  deriving DecidableEq

namespace NodeStats

/-- Derived `Default` for `NodeStats` (main.rs line 72): all fields zero. -/
def dflt : NodeStats := ⟨0, 0, 0⟩

/-- Rust `NodeStats::update` (main.rs lines 80-84). -/
def update (s : NodeStats) (rating : ℚ) : NodeStats :=
  ⟨s.sum + rating, s.sum_sq + rating * rating, s.count + 1⟩

/-- Rust `NodeStats::mean` (main.rs lines 85-87): `self.sum / self.count`.
The source divides unconditionally; with `count == 0` Rust computes
`0.0/0.0 = NaN` (a value, not an error).  Lean's convention `q / 0 = 0`
stands in for that non-error value. -/
def mean (s : NodeStats) : ℚ :=
  s.sum / (s.count : ℚ)

/-- The local `variance` of `NodeStats::std_dev` (main.rs line 90):
`self.sum_sq / self.count - mean * mean`.  The source then returns
`variance.sqrt()` (line 91) with no clamping; the square root is taken
in `ℝ` at the statement sites. -/
def variance (s : NodeStats) : ℚ :=
  s.sum_sq / (s.count : ℚ) - s.mean * s.mean

/-- Folding a list of ratings into a fresh accumulator, as both code
paths do record by record. -/
def ofRatings (l : List ℚ) : NodeStats :=
  l.foldl update dflt

/-- Error kind named by the spec (§7): `EmptyStatistics`. -/
inductive StatError where
  | emptyStatistics
  deriving DecidableEq

/-- Modelled from the spec (§4.1), not the source: "`mean()`: fails
with EmptyStatistics when `count == 0`".  The source's `mean` has no
such error path; this definition exists to compare the spec's contract
with the code. -/
def meanSpec (s : NodeStats) : Except StatError ℚ :=
  if s.count = 0 then .error .emptyStatistics else .ok (s.sum / (s.count : ℚ))

/-- Modelled from the spec (§4.1/§3): the variance underlying
`std_dev()`, failing with EmptyStatistics when `count == 0` and clamped
at zero ("`std_dev = sqrt(max(variance, 0))`").  The source's `std_dev`
neither fails nor clamps; this definition exists to compare the spec's
contract with the code. -/
def varianceSpec (s : NodeStats) : Except StatError ℚ :=
  if s.count = 0 then .error .emptyStatistics else .ok (max s.variance 0)

end NodeStats

/-- Rust `const THRESHOLD_MULTIPLE: f32 = 2.0` (main.rs line 95). -/
def THRESHOLD_MULTIPLE : ℚ := 2

/-- Rust `const FIXED_THRESHOLD: f32 = 2.0` (main.rs line 96). -/
def FIXED_THRESHOLD : ℚ := 2

/-- The anomaly decision shared by both paths (main.rs lines 132-137
and 221-226):

    if std_dev == 0.0 { rating.abs() > FIXED_THRESHOLD }
    else { (rating - mean).abs() > THRESHOLD_MULTIPLE * std_dev }

with `std_dev = variance.sqrt()` represented by its square: for
`0 ≤ variance` (which holds for every accumulator the program builds,
see `NodeStats.variance_ofRatings_nonneg`), `std_dev == 0.0` iff
`variance = 0`, and `diff > 2 * std_dev` iff `diff^2 > 4 * variance`
(lemma `classifyVar_sqrt`). -/
def classifyVar (rating mean variance : ℚ) : Bool :=
  if variance = 0 then
    decide (FIXED_THRESHOLD < |rating|)
  else
    decide (THRESHOLD_MULTIPLE * THRESHOLD_MULTIPLE * variance <
      (rating - mean) * (rating - mean))

/-- The row inserted by `process_interaction` (main.rs lines 107-109):
source, target and rating from the request, server-side timestamp,
`anomaly` initialised to 0. -/
def mkRecord (ni : NewInteraction) (now : Int) : Record :=
  ⟨ni.source, ni.target, ni.rating, now, 0⟩

/-- The query `SELECT rating FROM ratings WHERE source = $1`
(main.rs line 112): ratings of all stored rows whose `source` equals
the given entity, in storage order. -/
def sourceHistory (store : List Record) (src : Int) : List ℚ :=
  (store.filter (fun r => r.source == src)).map (fun r => r.rating)

/-- Rust `process_interaction` (main.rs lines 102-140), its storage effects
made explicit: append the new row, query the source's history
(which now includes the appended row), fold count/sum/sum_sq, derive
mean and std_dev (std_dev is 0.0 unless `count > 1`; represented by
its square as in `classifyVar`), classify.  Returns the verdict. -/
def processInteraction (store : List Record) (ni : NewInteraction)
    (now : Int) : Bool :=
  let store' := store ++ [mkRecord ni now]
  let rows := sourceHistory store' ni.source
  let count := rows.length
  let sum := rows.foldl (fun a r => a + r) 0
  let sum_sq := rows.foldl (fun a r => a + r * r) 0
  let mean := sum / (count : ℚ)
  let varianceEff :=
    if 1 < count then sum_sq / (count : ℚ) - mean * mean else 0
  classifyVar ni.rating mean varianceEff

/-- The post-insert state of the store after `process_interaction`. -/
def storeAfter (store : List Record) (ni : NewInteraction)
    (now : Int) : List Record :=
  store ++ [mkRecord ni now]

/-- Rust `add_interaction` (main.rs lines 145-171).  The argument is the
outcome of `task::spawn_blocking(process_interaction).await`: outer
`Except` is the join result, inner `Except` is `process_interaction`'s
own result (errors carry their display strings). -/
def addInteraction (result : Except String (Except String Bool)) :
    InteractionResponse :=
  match result with
  | .ok (.ok isAnomaly) =>
      ⟨if isAnomaly then "Anomaly" else "Normal", isAnomaly⟩
  | .ok (.error e) =>
      ⟨"Error processing interaction: " ++ e, false⟩
  | .error e =>
      ⟨"Task join error: " ++ e, false⟩

/-- Lookup in an association list, first match wins (models
`HashMap::get`; the maps built below never hold duplicate keys, and
first-match lookup is correct even if they did). -/
def lookupA {α : Type} : List (Int × α) → Int → Option α
  | [], _ => none
  | (k, v) :: rest, x => if k = x then some v else lookupA rest x

/-- Rust `adj_map.entry(source).or_insert_with(Vec::new).push(edge)`
(main.rs lines 201-203) on the association-list model: extend the
source's edge list, creating it if absent. -/
def insertEdge : List (Int × List Edge) → Int → Edge → List (Int × List Edge)
  | [], s, e => [(s, [e])]
  | (k, es) :: rest, s, e =>
      if k = s then (k, es ++ [e]) :: rest
      else (k, es) :: insertEdge rest s e

/-- Rust `node_stats.entry(k).or_default().update(rating)` (main.rs lines
205-206) on the association-list model. -/
def updateStats : List (Int × NodeStats) → Int → ℚ → List (Int × NodeStats)
  | [], k, r => [(k, NodeStats.dflt.update r)]
  | (k', s) :: rest, k, r =>
      if k' = k then (k', s.update r) :: rest
      else (k', s) :: updateStats rest k r

/-- One iteration of the first pass of `get_stats` (main.rs lines
187-207): push the row's edge onto the source's adjacency list, then
update the source's and the target's accumulators with the row's
rating. -/
def recordStep (acc : List (Int × List Edge) × List (Int × NodeStats))
    (rec : Record) :
    List (Int × List Edge) × List (Int × NodeStats) :=
  (insertEdge acc.1 rec.source ⟨rec.target, rec.rating, rec.timestamp, rec.anomaly⟩,
   updateStats (updateStats acc.2 rec.source rec.rating) rec.target rec.rating)

/-- The first pass of `get_stats`: fold every queried row into the
adjacency map and the per-node statistics map, both starting empty. -/
def buildGraph (rows : List Record) :
    List (Int × List Edge) × List (Int × NodeStats) :=
  rows.foldl recordStep ([], [])

/-- The statistics `get_stats` holds for entity `e` after the first
pass over `rows` (`or_default` semantics: absent means default). -/
def statsAt (rows : List Record) (e : Int) : NodeStats :=
  ((lookupA (buildGraph rows).2 e).getD NodeStats.dflt)

/-- The body of the inner loop of the second pass (main.rs lines
219-232): bump `total`, classify the edge against the source's mean
and std_dev, bump `anomalous` or `normal`.  Counter order:
(total, normal, anomalous). -/
def edgeStep (mean variance : ℚ) (acc : Nat × Nat × Nat) (e : Edge) :
    Nat × Nat × Nat :=
  if classifyVar e.rating mean variance then
    (acc.1 + 1, acc.2.1, acc.2.2 + 1)
  else
    (acc.1 + 1, acc.2.1 + 1, acc.2.2)

/-- One iteration of the outer loop of the second pass (main.rs lines
212-233): look up the source's statistics (`None => continue` skips the
group), then run the inner loop over its outgoing edges. -/
def groupStep (stats : List (Int × NodeStats)) (acc : Nat × Nat × Nat)
    (g : Int × List Edge) : Nat × Nat × Nat :=
  match lookupA stats g.1 with
  | none => acc
  | some st => g.2.foldl (edgeStep st.mean st.variance) acc

/-- The second pass of `get_stats`: fold `groupStep` over the adjacency
map with all three counters starting at zero. -/
def secondPass (stats : List (Int × NodeStats))
    (adj : List (Int × List Edge)) : Nat × Nat × Nat :=
  adj.foldl (groupStep stats) (0, 0, 0)

/-- Failure modes of the storage interaction of `get_stats` (main.rs
lines 179-182): `DATABASE_URL` unset, connection failure, query
failure. -/
inductive DbError where
  | configMissing
  | connectFailed
  | queryFailed
  deriving DecidableEq

/-- Rust `get_stats` (main.rs lines 177-253).  The argument is the outcome
of the storage interaction (the queried rows, or the error that
occurred); the final `match` maps any failure to the all-zero
response. -/
def getStats (db : Except DbError (List Record)) : StatsResponse :=
  match db with
  | .error _ => ⟨0, 0, 0, 0⟩
  | .ok rows =>
      let g := buildGraph rows
      let counts := secondPass g.2 g.1
      let ratio :=
        if 0 < counts.1 then (counts.2.2 : ℚ) / (counts.1 : ℚ) else 0
      ⟨counts.1, counts.2.1, counts.2.2, ratio⟩

/-- Total number of edges held in an adjacency map: the batch path
stores every scanned row as exactly one edge. -/
def edgeCount (adj : List (Int × List Edge)) : Nat :=
  (adj.map (fun g => g.2.length)).sum

/-!
Helper lemmas.
-/

/-- Squaring both sides of the dynamic-threshold comparison: for a
nonnegative variance `v`, `2 * sqrt v < |x|` holds exactly when
`4 * v < x * x`. -/
theorem two_sqrt_lt_abs_iff (x v : ℝ) (hv : 0 ≤ v) :
    2 * Real.sqrt v < |x| ↔ 4 * v < x * x := by
  have hsq : (2 * Real.sqrt v) * (2 * Real.sqrt v) = 4 * v := by
    rw [mul_mul_mul_comm, Real.mul_self_sqrt hv]; ring
  constructor
  · intro h
    have h0 : 0 ≤ 2 * Real.sqrt v := by positivity
    have h2 : (2 * Real.sqrt v) * (2 * Real.sqrt v) < |x| * |x| :=
      mul_self_lt_mul_self h0 h
    rw [abs_mul_abs_self] at h2
    linarith
  · intro h
    by_contra hle
    push_neg at hle
    have h2 : |x| * |x| ≤ (2 * Real.sqrt v) * (2 * Real.sqrt v) :=
      mul_self_le_mul_self (abs_nonneg x) hle
    rw [abs_mul_abs_self] at h2
    linarith

/-- Relation between the squared representation used by `classifyVar`
and the square-root formulation of the source: for every nonnegative
variance, the verdict equals the source's
`if std_dev == 0.0 { |rating| > 2.0 } else { |rating - mean| > 2.0 * std_dev }`
with `std_dev = sqrt variance`. -/
theorem classifyVar_sqrt (r m v : ℚ) (hv : 0 ≤ v) :
    (Real.sqrt (v : ℝ) = 0 →
      (classifyVar r m v = true ↔ FIXED_THRESHOLD < |r|)) ∧
    (Real.sqrt (v : ℝ) ≠ 0 →
      (classifyVar r m v = true ↔
        ((THRESHOLD_MULTIPLE : ℚ) : ℝ) * Real.sqrt (v : ℝ) <
          |(r : ℝ) - (m : ℝ)|)) := by
  have hv' : (0 : ℝ) ≤ (v : ℝ) := by exact_mod_cast hv
  constructor
  · intro hs
    have hv0 : (v : ℝ) = 0 := by
      rcases (Real.sqrt_eq_zero hv').mp hs with h
      exact h
    have hvq : v = 0 := by exact_mod_cast hv0
    simp [classifyVar, hvq]
  · intro hs
    have hvne : v ≠ 0 := by
      intro h
      exact hs (by rw [h]; simp)
    have hvpos : 0 < v := lt_of_le_of_ne hv (Ne.symm hvne)
    simp only [classifyVar, if_neg hvne, decide_eq_true_eq]
    have hcast : (THRESHOLD_MULTIPLE * THRESHOLD_MULTIPLE * v <
        (r - m) * (r - m)) ↔
        (4 * (v : ℝ) < ((r : ℝ) - (m : ℝ)) * ((r : ℝ) - (m : ℝ))) := by
      rw [show (THRESHOLD_MULTIPLE : ℚ) = 2 from rfl]
      constructor
      · intro h
        have := (Rat.cast_lt (K := ℝ)).mpr h
        push_cast at this
        linarith
      · intro h
        have : ((2 * 2 * v : ℚ) : ℝ) < (((r - m) * (r - m) : ℚ) : ℝ) := by
          push_cast
          linarith
        exact_mod_cast this
    rw [hcast, show ((THRESHOLD_MULTIPLE : ℚ) : ℝ) = 2 by norm_num [THRESHOLD_MULTIPLE]]
    exact (two_sqrt_lt_abs_iff ((r : ℝ) - (m : ℝ)) (v : ℝ) hv').symm

/-- C1: for every rating and every (nonnegative-variance) baseline the
classifier returns `|rating| > 2.0` when the standard deviation
`sqrt variance` is zero and `|rating - mean| > 2.0 * std_dev`
otherwise; with mean 5 and standard deviation 1 (variance 1), rating
7.5 is anomalous and rating 6.5 is normal. -/
theorem classify_threshold_policy :
    (∀ r m v : ℚ, 0 ≤ v →
      ((Real.sqrt (v : ℝ) = 0 →
          (classifyVar r m v = true ↔ FIXED_THRESHOLD < |r|)) ∧
       (Real.sqrt (v : ℝ) ≠ 0 →
          (classifyVar r m v = true ↔
            ((THRESHOLD_MULTIPLE : ℚ) : ℝ) * Real.sqrt (v : ℝ) <
              |(r : ℝ) - (m : ℝ)|)))) ∧
    classifyVar (15 / 2) 5 1 = true ∧ classifyVar (13 / 2) 5 1 = false := by
  refine ⟨fun r m v hv => classifyVar_sqrt r m v hv, ?_, ?_⟩
  · norm_num [classifyVar, FIXED_THRESHOLD, THRESHOLD_MULTIPLE]
  · norm_num [classifyVar, FIXED_THRESHOLD, THRESHOLD_MULTIPLE]

/-- Witness for C1: the quantified part applied at the concrete
baseline of the claim (mean 5, variance 1) and rating 7.5. -/
theorem classify_threshold_policy_witness :
    (0 : ℚ) ≤ 1 ∧
    (Real.sqrt ((1 : ℚ) : ℝ) ≠ 0 →
      (classifyVar (15 / 2) 5 1 = true ↔
        ((THRESHOLD_MULTIPLE : ℚ) : ℝ) * Real.sqrt ((1 : ℚ) : ℝ) <
          |((15 / 2 : ℚ) : ℝ) - ((5 : ℚ) : ℝ)|)) :=
  ⟨by norm_num, (classify_threshold_policy.1 (15 / 2) 5 1 (by norm_num)).2⟩

/-- Unfolding the accumulator fold: folding a list of ratings adds the
list's sum, sum of squares and length to the respective fields. -/
theorem foldl_update_eq (l : List ℚ) (s : NodeStats) :
    l.foldl NodeStats.update s =
      ⟨s.sum + l.sum, s.sum_sq + (l.map (fun r => r * r)).sum,
        s.count + l.length⟩ := by
  induction l generalizing s with
  | nil => cases s; simp
  | cons q t ih =>
      simp only [List.foldl_cons, ih, NodeStats.update, List.sum_cons,
        List.map_cons, List.length_cons, NodeStats.mk.injEq]
      refine ⟨by ring, by ring, by omega⟩

/-- Closed form of `NodeStats.ofRatings`. -/
theorem ofRatings_eq (l : List ℚ) :
    NodeStats.ofRatings l =
      ⟨l.sum, (l.map (fun r => r * r)).sum, l.length⟩ := by
  rw [NodeStats.ofRatings, foldl_update_eq]
  simp [NodeStats.dflt]

/-- Cauchy-Schwarz for a list of ratings: the squared sum is at most
the length times the sum of squares. -/
theorem sum_mul_self_le (l : List ℚ) :
    l.sum * l.sum ≤ (l.length : ℚ) * (l.map (fun r => r * r)).sum := by
  induction l with
  | nil => simp
  | cons q t ih =>
      have hQ : 0 ≤ (t.map (fun r => r * r)).sum := by
        apply List.sum_nonneg
        intro x hx
        rcases List.mem_map.mp hx with ⟨y, _, rfl⟩
        exact mul_self_nonneg y
      rcases Nat.eq_zero_or_pos t.length with h0 | hpos
      · have ht : t = [] := List.length_eq_zero.mp h0
        subst ht
        simp
      · have hn : (1 : ℚ) ≤ (t.length : ℚ) := by exact_mod_cast hpos
        simp only [List.sum_cons, List.map_cons, List.length_cons]
        push_cast
        nlinarith [ih, hQ, sq_nonneg (t.sum - (t.length : ℚ) * q), hn]

/-- Every accumulator actually built by the program (a fold of
`update` over a list of ratings) has a nonnegative variance, so the
square root in `std_dev` is never taken of a negative number in exact
arithmetic. -/
theorem variance_ofRatings_nonneg (l : List ℚ) :
    0 ≤ (NodeStats.ofRatings l).variance := by
  rw [ofRatings_eq]
  rcases Nat.eq_zero_or_pos l.length with h0 | hpos
  · have hl : l = [] := List.length_eq_zero.mp h0
    subst hl
    simp [NodeStats.variance, NodeStats.mean]
  · have hn : (0 : ℚ) < (l.length : ℚ) := by exact_mod_cast hpos
    have h := sum_mul_self_le l
    simp only [NodeStats.variance, NodeStats.mean]
    rw [sub_nonneg, div_mul_div_comm, div_le_div_iff₀ (by positivity) hn]
    nlinarith [h, hn]

/-- C3 counterexample: the code's `std_dev` does not clamp the variance
before taking the square root.  On the state with `sum = 2`,
`sum_sq = 0`, `count = 1` the variance the code passes to `sqrt` is
`-4`, which differs from the clamped value `0` that the claim
describes (and which `varianceSpec`, modelled from the spec's words,
returns). -/
theorem variance_unclamped_cex :
    NodeStats.variance ⟨2, 0, 1⟩ = -4 ∧
    NodeStats.varianceSpec ⟨2, 0, 1⟩ = .ok 0 ∧
    max (NodeStats.variance ⟨2, 0, 1⟩) 0 = 0 := by
  norm_num [NodeStats.variance, NodeStats.varianceSpec, NodeStats.mean]

/-- C3 (amended): over exactly one accumulated sample the variance is
exactly 0 for any rating value (so `std_dev = sqrt 0 = 0`), and every
accumulator built by `update` has nonnegative variance, so in exact
arithmetic the unclamped square root is never taken of a negative
number — but the code performs no clamping. -/
theorem single_sample_variance_zero :
    (∀ q : ℚ, (NodeStats.dflt.update q).variance = 0 ∧
      Real.sqrt (((NodeStats.dflt.update q).variance : ℚ) : ℝ) = 0) ∧
    ∀ l : List ℚ, 0 ≤ (NodeStats.ofRatings l).variance := by
  constructor
  · intro q
    have h : (NodeStats.dflt.update q).variance = 0 := by
      simp [NodeStats.dflt, NodeStats.update, NodeStats.variance,
        NodeStats.mean]
    exact ⟨h, by rw [h]; simp⟩
  · exact variance_ofRatings_nonneg

/-- C4 counterexample: on the zero-count state `⟨3, 9, 0⟩` the spec's
contract (modelled by `meanSpec`/`varianceSpec`) fails with
`EmptyStatistics`, but the code's `mean` and `std_dev` have no error
path at all: they divide by the zero count and return a plain value
(`NaN` in Rust `f32`; the exact model's division-by-zero convention
yields `0`). -/
theorem mean_no_error_cex :
    NodeStats.meanSpec ⟨3, 9, 0⟩ = .error .emptyStatistics ∧
    NodeStats.varianceSpec ⟨3, 9, 0⟩ = .error .emptyStatistics ∧
    NodeStats.mean ⟨3, 9, 0⟩ = 0 ∧
    NodeStats.variance ⟨3, 9, 0⟩ = 0 := by
  refine ⟨rfl, rfl, ?_, ?_⟩ <;>
    norm_num [NodeStats.mean, NodeStats.variance]

/-- Characterisation of `updateStats` through `lookupA`: the updated
key maps to its old value (default if absent) updated with the rating;
all other keys are untouched. -/
theorem lookupA_updateStats (m : List (Int × NodeStats)) (k : Int)
    (r : ℚ) (x : Int) :
    lookupA (updateStats m k r) x =
      if x = k then
        some (((lookupA m k).getD NodeStats.dflt).update r)
      else lookupA m x := by
  induction m with
  | nil =>
      by_cases h : x = k
      · subst h
        simp [updateStats, lookupA]
      · simp [updateStats, lookupA, h, Ne.symm h]
  | cons hd tl ih =>
      obtain ⟨k', s⟩ := hd
      by_cases h1 : k' = k
      · subst h1
        by_cases h2 : x = k'
        · subst h2
          simp [updateStats, lookupA]
        · simp [updateStats, lookupA, h2, Ne.symm h2]
      · by_cases h2 : x = k'
        · subst h2
          simp [updateStats, lookupA, h1, Ne.symm h1, ih]
        · simp [updateStats, lookupA, h1, h2, Ne.symm h2, ih]

/-- Characterisation of `insertEdge` through `lookupA`: the source key
maps to its old edge list (empty if absent) with the new edge pushed at
the end; all other keys are untouched. -/
theorem lookupA_insertEdge (adj : List (Int × List Edge)) (s : Int)
    (e : Edge) (x : Int) :
    lookupA (insertEdge adj s e) x =
      if x = s then some (((lookupA adj s).getD []) ++ [e])
      else lookupA adj x := by
  induction adj with
  | nil =>
      by_cases h : x = s
      · subst h
        simp [insertEdge, lookupA]
      · simp [insertEdge, lookupA, h, Ne.symm h]
  | cons hd tl ih =>
      obtain ⟨k', es⟩ := hd
      by_cases h1 : k' = s
      · subst h1
        by_cases h2 : x = k'
        · subst h2
          simp [insertEdge, lookupA]
        · simp [insertEdge, lookupA, h2, Ne.symm h2]
      · by_cases h2 : x = k'
        · subst h2
          simp [insertEdge, lookupA, h1, Ne.symm h1, ih]
        · simp [insertEdge, lookupA, h1, h2, Ne.symm h2, ih]

/-- Every statistics entry reachable through the first pass has a
positive count: statistics are only ever created by `update`, which
sets the count to at least one. -/
theorem foldl_recordStep_count_pos (rows : List Record) :
    ∀ (acc : List (Int × List Edge) × List (Int × NodeStats)),
    (∀ y st, lookupA acc.2 y = some st → 0 < st.count) →
    ∀ x st, lookupA (rows.foldl recordStep acc).2 x = some st →
      0 < st.count := by
  induction rows with
  | nil => intro acc hacc x st h; exact hacc x st h
  | cons rec t ih =>
      intro acc hacc x st h
      refine ih (recordStep acc rec) ?_ x st h
      intro y st' hy
      simp only [recordStep, lookupA_updateStats] at hy
      by_cases h1 : y = rec.target
      · rw [if_pos h1] at hy
        cases hy
        simp [NodeStats.update]
      · rw [if_neg h1] at hy
        by_cases h2 : y = rec.source
        · rw [if_pos h2] at hy
          cases hy
          simp [NodeStats.update]
        · rw [if_neg h2] at hy
          exact hacc y st' hy

/-- C4 counterexample is `mean_no_error_cex` above.  C4 (amended): the
code's `mean` and `std_dev` have no failure path.  Where the count is
positive they compute the values the spec's EmptyStatistics contract
defines (modulo the absent clamp handled in C3); and every statistics
entry the batch path can look up has a positive count, so the program
never performs the zero-count division on an entry it found. -/
theorem stats_nonempty_agree :
    (∀ s : NodeStats, 0 < s.count →
      NodeStats.meanSpec s = .ok s.mean ∧
      NodeStats.varianceSpec s = .ok (max s.variance 0)) ∧
    (∀ (rows : List Record) (x : Int) (st : NodeStats),
      lookupA (buildGraph rows).2 x = some st → 0 < st.count) := by
  constructor
  · intro s hs
    have h0 : s.count ≠ 0 := Nat.pos_iff_ne_zero.mp hs
    exact ⟨by simp [NodeStats.meanSpec, NodeStats.mean, h0],
      by simp [NodeStats.varianceSpec, h0]⟩
  · intro rows x st h
    refine foldl_recordStep_count_pos rows ([], []) ?_ x st h
    intro y st' hy
    simp [lookupA] at hy

/-- Witness for C4's amended theorem: the contract agreement applied at
the concrete one-sample state `⟨3, 9, 1⟩`. -/
theorem stats_nonempty_agree_witness :
    0 < (⟨3, 9, 1⟩ : NodeStats).count ∧
    NodeStats.meanSpec ⟨3, 9, 1⟩ = .ok (NodeStats.mean ⟨3, 9, 1⟩) :=
  ⟨by norm_num, (stats_nonempty_agree.1 ⟨3, 9, 1⟩ (by norm_num)).1⟩

/-- C5: the incremental ingest verdict depends only on stored samples
whose `source` is the issuing entity — deleting every other sample
(in particular every sample where the entity appears only as `target`)
from the store leaves the verdict unchanged. -/
theorem incremental_source_only (store : List Record)
    (ni : NewInteraction) (now : Int) :
    processInteraction store ni now =
      processInteraction (store.filter (fun r => r.source == ni.source))
        ni now := by
  simp only [processInteraction, sourceHistory, List.filter_append,
    List.filter_filter, Bool.and_self]

/-- C9: both failure shapes of `add_interaction` (an error from
`process_interaction`, or a task-join error) produce a well-formed
response with `is_anomaly = false` and a non-empty diagnostic status;
no fault propagates (the function is total). -/
theorem ingest_soft_fail (e : String) :
    (addInteraction (.ok (.error e))).is_anomaly = false ∧
    0 < (addInteraction (.ok (.error e))).status.length ∧
    (addInteraction (.error e)).is_anomaly = false ∧
    0 < (addInteraction (.error e)).status.length := by
  refine ⟨rfl, ?_, rfl, ?_⟩
  · have h1 : (addInteraction (.ok (.error e))).status =
        "Error processing interaction: " ++ e := rfl
    rw [h1, String.length_append]
    have h2 : ("Error processing interaction: " : String).length = 30 := rfl
    omega
  · have h1 : (addInteraction (.error e)).status =
        "Task join error: " ++ e := rfl
    rw [h1, String.length_append]
    have h2 : ("Task join error: " : String).length = 17 := rfl
    omega

/-- C10: the history queried by `process_interaction` runs after the
insert, so it is the prior source history with the new rating appended;
in particular it is non-empty, so the count the mean is divided by is
at least one. -/
theorem history_includes_new_sample (store : List Record)
    (ni : NewInteraction) (now : Int) :
    sourceHistory (storeAfter store ni now) ni.source =
      sourceHistory store ni.source ++ [ni.rating] ∧
    0 < (sourceHistory (storeAfter store ni now) ni.source).length := by
  have h : sourceHistory (storeAfter store ni now) ni.source =
      sourceHistory store ni.source ++ [ni.rating] := by
    simp [sourceHistory, storeAfter, mkRecord, List.filter_append]
  exact ⟨h, by simp [h]⟩

/-- C6: appending one row to the batch scan updates the source's and
the target's statistics, each folded with that row's own rating; an
entity that is both source and target (self-loop) is updated twice,
and every other entity is untouched. -/
theorem batch_first_pass_updates (rows : List Record) (rec : Record)
    (e : Int) :
    statsAt (rows ++ [rec]) e =
      if e = rec.source ∧ e = rec.target then
        ((statsAt rows e).update rec.rating).update rec.rating
      else if e = rec.source ∨ e = rec.target then
        (statsAt rows e).update rec.rating
      else statsAt rows e := by
  have hfold : buildGraph (rows ++ [rec]) = recordStep (buildGraph rows) rec := by
    simp [buildGraph, List.foldl_append]
  simp only [statsAt, hfold, recordStep, lookupA_updateStats]
  by_cases h1 : e = rec.source <;> by_cases h2 : e = rec.target
  · have h3 : rec.target = rec.source := h2.symm.trans h1
    rw [if_pos h2, if_pos h3, if_pos ⟨h1, h2⟩]
    simp [h1]
  · rw [if_neg h2, if_pos h1,
      if_neg (fun hh : e = rec.source ∧ e = rec.target => h2 hh.2),
      if_pos (Or.inl h1)]
    simp [h1]
  · have h4 : ¬rec.target = rec.source := fun hh => h1 (h2.trans hh)
    rw [if_pos h2, if_neg h4,
      if_neg (fun hh : e = rec.source ∧ e = rec.target => h1 hh.1),
      if_pos (Or.inr h2)]
    simp [h2]
  · rw [if_neg h2, if_neg h1,
      if_neg (fun hh : e = rec.source ∧ e = rec.target => h1 hh.1),
      if_neg (fun hh : e = rec.source ∨ e = rec.target => hh.elim h1 h2)]

/-- C7: the verdict of every edge of a group in the second pass is a
function of the source's statistics entry alone — two statistics maps
that agree on the group's source key produce identical counters,
whatever they store for targets or any other entity; and when the
source's entry is found, every edge of the group is classified against
that entry's mean and variance. -/
theorem batch_second_pass_source_only :
    (∀ (st1 st2 : List (Int × NodeStats)) (acc : Nat × Nat × Nat)
        (g : Int × List Edge),
      lookupA st1 g.1 = lookupA st2 g.1 →
      groupStep st1 acc g = groupStep st2 acc g) ∧
    (∀ (stats : List (Int × NodeStats)) (st : NodeStats)
        (acc : Nat × Nat × Nat) (g : Int × List Edge),
      lookupA stats g.1 = some st →
      groupStep stats acc g =
        g.2.foldl (edgeStep st.mean st.variance) acc) := by
  constructor
  · intro st1 st2 acc g h
    simp only [groupStep, h]
  · intro stats st acc g h
    simp only [groupStep, h]

/-- Witness for C7: two concrete statistics maps that differ at the
target entity 2 but agree at the source entity 1 give the same counts
for entity 1's group. -/
theorem batch_second_pass_source_only_witness :
    lookupA [((1 : Int), (⟨0, 0, 1⟩ : NodeStats)), (2, ⟨5, 25, 1⟩)] 1 =
      lookupA [((1 : Int), (⟨0, 0, 1⟩ : NodeStats)), (2, ⟨9, 81, 3⟩)] 1 ∧
    groupStep [((1 : Int), ⟨0, 0, 1⟩), (2, ⟨5, 25, 1⟩)] (0, 0, 0)
        (1, [⟨2, 3, 0, 0⟩]) =
      groupStep [((1 : Int), ⟨0, 0, 1⟩), (2, ⟨9, 81, 3⟩)] (0, 0, 0)
        (1, [⟨2, 3, 0, 0⟩]) :=
  ⟨by norm_num [lookupA],
   batch_second_pass_source_only.1 _ _ _ _ (by norm_num [lookupA])⟩

/-- Inserting one edge grows the total edge count of the adjacency map
by exactly one. -/
theorem edgeCount_insertEdge (adj : List (Int × List Edge)) (s : Int)
    (e : Edge) :
    edgeCount (insertEdge adj s e) = edgeCount adj + 1 := by
  induction adj with
  | nil => simp [insertEdge, edgeCount]
  | cons hd tl ih =>
      obtain ⟨k, es⟩ := hd
      by_cases h : k = s
      · simp [insertEdge, h, edgeCount]
        omega
      · simp [insertEdge, h, edgeCount] at ih ⊢
        omega

/-- The first pass stores each scanned row as exactly one edge: the
total edge count equals the number of rows folded in. -/
theorem foldl_recordStep_edgeCount (rows : List Record) :
    ∀ acc : List (Int × List Edge) × List (Int × NodeStats),
    edgeCount (rows.foldl recordStep acc).1 = edgeCount acc.1 + rows.length := by
  induction rows with
  | nil => intro acc; simp
  | cons rec t ih =>
      intro acc
      simp only [List.foldl_cons, List.length_cons, ih (recordStep acc rec)]
      simp [recordStep, edgeCount_insertEdge]
      omega

/-- Any key present in the adjacency map built by the first pass is
also present in the statistics map (the source of every stored edge had
its accumulator updated by the same iteration). -/
theorem foldl_recordStep_keys (rows : List Record) :
    ∀ acc : List (Int × List Edge) × List (Int × NodeStats),
    (∀ x, (lookupA acc.1 x).isSome → (lookupA acc.2 x).isSome) →
    ∀ x, (lookupA (rows.foldl recordStep acc).1 x).isSome →
      (lookupA (rows.foldl recordStep acc).2 x).isSome := by
  induction rows with
  | nil => intro acc hacc; exact hacc
  | cons rec t ih =>
      intro acc hacc
      refine ih (recordStep acc rec) ?_
      intro x hx
      simp only [recordStep, lookupA_insertEdge, lookupA_updateStats] at hx ⊢
      by_cases h1 : x = rec.target
      · rw [if_pos h1]
        simp
      · rw [if_neg h1]
        by_cases h2 : x = rec.source
        · rw [if_pos h2]
          simp
        · rw [if_neg h2]
          rw [if_neg h2] at hx
          exact hacc x hx

/-- A group that occurs in an association list can be looked up by its
own key. -/
theorem lookupA_isSome_of_mem {α : Type} (m : List (Int × α))
    (g : Int × α) (hg : g ∈ m) : (lookupA m g.1).isSome := by
  induction m with
  | nil => cases hg
  | cons hd tl ih =>
      obtain ⟨k, v⟩ := hd
      rcases List.mem_cons.mp hg with h | h
      · subst h
        simp [lookupA]
      · by_cases hk : k = g.1
        · simp [lookupA, hk]
        · simp [lookupA, hk]
          exact ih h

/-- The inner loop of the second pass increments `total` once per edge
and splits each increment between `normal` and `anomalous`. -/
theorem edgeFold_spec (m v : ℚ) (es : List Edge) :
    ∀ acc : Nat × Nat × Nat,
    (es.foldl (edgeStep m v) acc).1 = acc.1 + es.length ∧
    (es.foldl (edgeStep m v) acc).2.1 + (es.foldl (edgeStep m v) acc).2.2 =
      acc.2.1 + acc.2.2 + es.length := by
  induction es with
  | nil => intro acc; simp
  | cons e t ih =>
      intro acc
      simp only [List.foldl_cons, List.length_cons]
      rcases ih (edgeStep m v acc e) with ⟨h1, h2⟩
      refine ⟨?_, ?_⟩
      · rw [h1]
        simp only [edgeStep]
        split <;> simp <;> omega
      · rw [h2]
        simp only [edgeStep]
        split <;> simp <;> omega

/-- The outer loop of the second pass, provided every group's source
key can be looked up in the statistics map, counts every edge exactly
once and splits the count between `normal` and `anomalous`. -/
theorem groupFold_spec (stats : List (Int × NodeStats))
    (adj : List (Int × List Edge)) :
    (∀ g ∈ adj, (lookupA stats g.1).isSome) →
    ∀ acc : Nat × Nat × Nat,
    (adj.foldl (groupStep stats) acc).1 = acc.1 + edgeCount adj ∧
    (adj.foldl (groupStep stats) acc).2.1 +
        (adj.foldl (groupStep stats) acc).2.2 =
      acc.2.1 + acc.2.2 + edgeCount adj := by
  induction adj with
  | nil => intro _ acc; simp [edgeCount]
  | cons g t ih =>
      intro hkeys acc
      have hg : (lookupA stats g.1).isSome := hkeys g (List.mem_cons_self g t)
      rcases Option.isSome_iff_exists.mp hg with ⟨st, hst⟩
      have hgs : groupStep stats acc g =
          g.2.foldl (edgeStep st.mean st.variance) acc := by
        simp only [groupStep, hst]
      rcases edgeFold_spec st.mean st.variance g.2 acc with ⟨h1, h2⟩
      have ht := ih (fun g' hg' => hkeys g' (List.mem_cons_of_mem g hg'))
        (groupStep stats acc g)
      rcases ht with ⟨h3, h4⟩
      constructor
      · rw [List.foldl_cons, h3, hgs, h1]
        simp only [edgeCount, List.map_cons, List.sum_cons]
        omega
      · rw [List.foldl_cons, h4, hgs, h2]
        simp only [edgeCount, List.map_cons, List.sum_cons]
        omega

/-- C2: over any dataset within the `u32` range, the batch aggregation
classifies exactly one interaction per scanned sample
(`total_interactions` equals the number of rows), and the normal and
anomalous counters partition the total exactly. -/
theorem batch_counts_conserved (rows : List Record)
    (_h : rows.length < 2 ^ 32) :
    (getStats (.ok rows)).total_interactions = rows.length ∧
    (getStats (.ok rows)).normal_interactions +
        (getStats (.ok rows)).anomalous_interactions =
      (getStats (.ok rows)).total_interactions := by
  have hkeys : ∀ g ∈ (buildGraph rows).1,
      (lookupA (buildGraph rows).2 g.1).isSome := by
    intro g hg
    refine foldl_recordStep_keys rows ([], []) ?_ g.1
      (lookupA_isSome_of_mem (buildGraph rows).1 g hg)
    intro x hx
    simp [lookupA] at hx
  have hc := groupFold_spec (buildGraph rows).2 (buildGraph rows).1 hkeys
    (0, 0, 0)
  have he : edgeCount (buildGraph rows).1 = rows.length := by
    have := foldl_recordStep_edgeCount rows ([], [])
    simpa [buildGraph, edgeCount] using this
  rcases hc with ⟨h1, h2⟩
  simp only [getStats, secondPass] at h1 h2 ⊢
  constructor
  · simp only [h1, he]
    omega
  · simp only [h1, h2, he]

/-- Witness for C2 at a concrete one-row dataset. -/
theorem batch_counts_conserved_witness :
    ([(⟨1, 2, 3, 10, 0⟩ : Record)].length < 2 ^ 32) ∧
    ((getStats (.ok [(⟨1, 2, 3, 10, 0⟩ : Record)])).total_interactions =
        [(⟨1, 2, 3, 10, 0⟩ : Record)].length ∧
      (getStats (.ok [(⟨1, 2, 3, 10, 0⟩ : Record)])).normal_interactions +
          (getStats (.ok [(⟨1, 2, 3, 10, 0⟩ : Record)])).anomalous_interactions =
        (getStats (.ok [(⟨1, 2, 3, 10, 0⟩ : Record)])).total_interactions) :=
  ⟨by norm_num, batch_counts_conserved [⟨1, 2, 3, 10, 0⟩] (by norm_num)⟩

/-- C8: every internal failure of the batch path (configuration
missing, connection failure, query failure) yields the all-zero
response with ratio 0, and so does the empty dataset. -/
theorem aggregate_soft_fail :
    (∀ e : DbError, getStats (.error e) = ⟨0, 0, 0, 0⟩) ∧
    getStats (.ok []) = ⟨0, 0, 0, 0⟩ := by
  exact ⟨fun e => rfl, rfl⟩

end NetSec
